import Mathlib

/-!
Shallow embedding of the CLI task timer's core (`src/task/mod.rs`): the task
lifecycle state machine (`Task`) and the manager bookkeeping (`TaskManager`).

Modelling conventions:
* `DateTime<Utc>` timestamps are integers (`Int`); `std::time::Duration` is a
  non-negative count (`Nat`).  `Utc::now()` becomes an explicit `now : Int`
  argument to every operation that reads the clock.
* chrono's `signed_duration_since(..).to_std()` fails exactly when the signed
  difference is negative, hence the `now - started_at < 0` tests below;
  `to_std().unwrap_or(ZERO)` is `Int.toNat`.
* A Rust method on `&mut self` returning `Result<A>` becomes a function
  returning the final state paired with `Except TaskError A`, so that the
  state after a failed call is part of the model.
* Rust's panicking index `self.tasks[index]` is totalised with `List.getD`
  (the default is irrelevant: every theorem that touches it carries an
  in-bounds hypothesis).
* The file-system variants of the error enum (`IoError`,
  `SerializationError`, `TimeError`) and the persistence methods
  (`save`, `load_or_create`, `get_config_path`) are outside the embedding.
-/

namespace TT

/-- Status of a task (`TaskStatus` in `src/task/mod.rs`). -/
inductive TaskStatus where
  | Running
  | Paused
  | Completed
deriving DecidableEq, Repr

/-- Errors of task operations (`TaskError` in `src/task/mod.rs`, minus the
file-system variants).  `ValidationError` is modelled from the spec: it is the
"validation error distinct from `InvalidState`" that section 7 requires for an
empty rename label; its concrete source is not among the repository files. -/
inductive TaskError where
  | NoActiveTask
  | TaskAlreadyRunning
  | TaskAlreadyPaused
  | TaskCompleted
  | InvalidDuration
  | InvalidState (message : String)
  | TaskNotFound (id : Nat)
  | ValidationError (message : String)
deriving DecidableEq, Repr

/-- A single task with timing information (`Task` in `src/task/mod.rs`). -/
structure Task where
  label : String
  status : TaskStatus
  created_at : Int
  started_at : Option Int
  accumulated_duration : Nat
deriving DecidableEq, Repr

instance : Inhabited Task :=
  ⟨{ label := "", status := .Completed, created_at := 0, started_at := none,
     accumulated_duration := 0 }⟩

/-- `Task::new`: creates a task with the given label and starts it
immediately. -/
def Task.new (label : String) (now : Int) : Task :=
  { label := label
    status := .Running
    created_at := now
    started_at := some now
    accumulated_duration := 0 }

/-- `Task::is_running`. -/
def Task.is_running (t : Task) : Bool :=
  match t.status with
  | .Running => true
  | _ => false

/-- `Task::is_paused`. -/
def Task.is_paused (t : Task) : Bool :=
  match t.status with
  | .Paused => true
  | _ => false

/-- `Task::is_completed`. -/
def Task.is_completed (t : Task) : Bool :=
  match t.status with
  | .Completed => true
  | _ => false

/-- `Task::pause`: accumulates the elapsed time of the current session and
moves to `Paused`.  The elapsed computation fails (`InvalidDuration`) when the
signed difference is negative, mirroring `to_std()`. -/
def Task.pause (t : Task) (now : Int) : Except TaskError Task :=
  match t.status with
  | .Running =>
    match t.started_at with
    | some started_at =>
      if now - started_at < 0 then
        .error .InvalidDuration
      else
        .ok { t with
              accumulated_duration := t.accumulated_duration + (now - started_at).toNat
              status := .Paused
              started_at := none }
    | none => .error (.InvalidState "Task is running but has no start time")
  | .Paused => .error .TaskAlreadyPaused
  | .Completed => .error .TaskCompleted

/-- `Task::resume`: moves a paused task back to `Running`, starting a fresh
session at `now`. -/
def Task.resume (t : Task) (now : Int) : Except TaskError Task :=
  match t.status with
  | .Paused => .ok { t with status := .Running, started_at := some now }
  | .Running => .error .TaskAlreadyRunning
  | .Completed => .error .TaskCompleted

/-- `Task::complete`: from `Running` it pauses first (folding the live session
into the accumulated duration) and then marks `Completed`; from `Paused` it
marks `Completed` directly. -/
def Task.complete (t : Task) (now : Int) : Except TaskError Task :=
  match t.status with
  | .Running =>
    match t.pause now with
    | .error e => .error e
    | .ok t2 => .ok { t2 with status := .Completed }
  | .Paused => .ok { t with status := .Completed }
  | .Completed => .error .TaskCompleted

/-- `Task::total_duration`: the accumulated duration plus, while running, the
live session `now - started_at` (degrading to zero when negative, mirroring
`unwrap_or(Duration::ZERO)`). -/
def Task.total_duration (t : Task) (now : Int) : Nat :=
  match t.status, t.started_at with
  | .Running, some started_at => t.accumulated_duration + (now - started_at).toNat
  | _, _ => t.accumulated_duration

/-- The retention cap (`MAX_TASKS` in `src/task/mod.rs`). -/
def MAX_TASKS : Nat := 10

/-- The task manager (`TaskManager` in `src/task/mod.rs`): the ordered task
list plus the optional index of the active task. -/
structure TaskManager where
  tasks : List Task
  active_task_index : Option Nat
deriving DecidableEq, Repr

/-- `TaskManager::new` (= `Default::default()`). -/
def TaskManager.new : TaskManager :=
  { tasks := [], active_task_index := none }

/-- `TaskManager::current_task`. -/
def TaskManager.current_task (m : TaskManager) : Option Task :=
  m.active_task_index.map (fun index => m.tasks.getD index default)

/-- `TaskManager::task_count`. -/
def TaskManager.task_count (m : TaskManager) : Nat :=
  m.tasks.length

/-- `TaskManager::start_task`: pauses the active task when it is running
(propagating a pause failure before anything is added), then appends
`Task::new label` and makes it active. -/
def TaskManager.start_task (m : TaskManager) (label : String) (now : Int) :
    TaskManager × Except TaskError Nat :=
  let paused : Except TaskError TaskManager :=
    match m.active_task_index with
    | some index =>
      if (m.tasks.getD index default).is_running then
        match (m.tasks.getD index default).pause now with
        | .error e => .error e
        | .ok t2 => .ok { m with tasks := m.tasks.set index t2 }
      else .ok m
    | none => .ok m
  match paused with
  | .error e => (m, .error e)
  | .ok m2 =>
    let tasks2 := m2.tasks ++ [Task.new label now]
    ({ tasks := tasks2, active_task_index := some (tasks2.length - 1) },
     .ok (tasks2.length - 1))

/-- `TaskManager::pause_current_task`. -/
def TaskManager.pause_current_task (m : TaskManager) (now : Int) :
    TaskManager × Except TaskError Unit :=
  match m.active_task_index with
  | some index =>
    match (m.tasks.getD index default).pause now with
    | .error e => (m, .error e)
    | .ok t2 => ({ m with tasks := m.tasks.set index t2 }, .ok ())
  | none => (m, .error .NoActiveTask)

/-- `TaskManager::resume_current_task`. -/
def TaskManager.resume_current_task (m : TaskManager) (now : Int) :
    TaskManager × Except TaskError Unit :=
  match m.active_task_index with
  | some index =>
    match (m.tasks.getD index default).resume now with
    | .error e => (m, .error e)
    | .ok t2 => ({ m with tasks := m.tasks.set index t2 }, .ok ())
  | none => (m, .error .NoActiveTask)

/-- `TaskManager::complete_current_task`: completes the active task and clears
`active_task_index`. -/
def TaskManager.complete_current_task (m : TaskManager) (now : Int) :
    TaskManager × Except TaskError Unit :=
  match m.active_task_index with
  | some index =>
    match (m.tasks.getD index default).complete now with
    | .error e => (m, .error e)
    | .ok t2 =>
      ({ tasks := m.tasks.set index t2, active_task_index := none }, .ok ())
  | none => (m, .error .NoActiveTask)

/-- `TaskManager::delete_task` (1-based index): validation, the active-task
guard, removal, and the re-indexing of `active_task_index`, in the source's
order. -/
def TaskManager.delete_task (m : TaskManager) (index : Nat) :
    TaskManager × Except TaskError Unit :=
  if index = 0 then
    (m, .error (.InvalidState "Task index must be greater than 0"))
  else if index > m.tasks.length then
    (m, .error (.InvalidState ("Task index " ++ toString index ++
      " is out of bounds. Valid range: 1-" ++ toString m.tasks.length)))
  else if m.tasks.isEmpty then
    (m, .error (.InvalidState "No tasks available to delete"))
  else
    let task_index := index - 1
    let active_guard : Option TaskError :=
      match m.active_task_index with
      | some active_idx =>
        if active_idx = task_index then
          let task := m.tasks.getD task_index default
          if task.is_running then
            some (.InvalidState ("Cannot delete task '" ++ task.label ++
              "' - task is currently running. Please pause or complete it first."))
          else if task.is_paused then
            some (.InvalidState ("Cannot delete task '" ++ task.label ++
              "' - task is currently paused. Please resume and complete it, or complete it directly."))
          else none
        else none
      | none => none
    match active_guard with
    | some e => (m, .error e)
    | none =>
      let tasks2 := m.tasks.eraseIdx task_index
      let active2 :=
        match m.active_task_index with
        | some active_idx =>
          if task_index < active_idx then some (active_idx - 1)
          else if task_index = active_idx then none
          else some active_idx
        | none => none
      ({ tasks := tasks2, active_task_index := active2 }, .ok ())

/-- `TaskManager::delete_completed_tasks`: removes every completed task
(`Vec::retain` keeps order) and re-indexes the active pointer by subtracting
the total removed count (`saturating_sub`, then an out-of-bounds check). -/
def TaskManager.delete_completed_tasks (m : TaskManager) :
    TaskManager × Except TaskError Nat :=
  if m.tasks.isEmpty then (m, .ok 0)
  else
    let completed_count := (m.tasks.filter (fun t => t.is_completed)).length
    if completed_count = 0 then (m, .ok 0)
    else
      let tasks2 := m.tasks.filter (fun t => !t.is_completed)
      let active2 :=
        match m.active_task_index with
        | some active_idx =>
          let new_idx := active_idx - completed_count
          if tasks2.length ≤ new_idx then none else some new_idx
        | none => none
      ({ tasks := tasks2, active_task_index := active2 }, .ok completed_count)

/-- `TaskManager::cleanup_old_tasks`: when more than `MAX_TASKS` tasks are
stored, keep the active/non-completed tasks (in order, re-deriving the active
index from the fold position) and append the newest completed tasks after
sorting the completed ones by creation time, dropping the oldest. -/
def TaskManager.cleanup_old_tasks (m : TaskManager) : TaskManager :=
  if m.tasks.length ≤ MAX_TASKS then m
  else
    let active_task_id := m.active_task_index
    let split := m.tasks.enum.partition
      (fun p => active_task_id == some p.1 || !p.2.is_completed)
    let sorted_completed := split.2.mergeSort
      (fun a b => a.2.created_at ≤ b.2.created_at)
    let folded := split.1.foldl
      (fun acc p =>
        (acc.1 ++ [p.2],
         if active_task_id = some p.1 then some acc.1.length else acc.2))
      (([] : List Task), (none : Option Nat))
    let remaining_slots := MAX_TASKS - folded.1.length
    let keep_completed := sorted_completed.length - remaining_slots
    { tasks := folded.1 ++ (sorted_completed.drop keep_completed).map (fun p => p.2)
      active_task_index := folded.2 }

/-- Modelled from the spec: `TaskManager::rename_task` is declared by the CLI
layer (`Commands::Rename`) and exercised by the integration tests, but its
implementation is not among the source files.  Following spec section 4.2:
index bounds are validated identically to `delete_task`; the new label must be
non-empty after trimming whitespace (else a validation error distinct from
`InvalidState` whose message contains "empty"); on success the label is
swapped and the previous one is returned, regardless of the task's status and
without touching `active_task_index`.  Emptiness after trimming whitespace is
rendered as "every character is whitespace" (equivalent, and executable). -/
def TaskManager.rename_task (m : TaskManager) (index : Nat) (new_label : String) :
    TaskManager × Except TaskError String :=
  if index = 0 then
    (m, .error (.InvalidState "Task index must be greater than 0"))
  else if index > m.tasks.length then
    (m, .error (.InvalidState ("Task index " ++ toString index ++
      " is out of bounds. Valid range: 1-" ++ toString m.tasks.length)))
  else if m.tasks.isEmpty then
    (m, .error (.InvalidState "No tasks available to delete"))
  else if new_label.toList.all Char.isWhitespace then
    (m, .error (.ValidationError "Task label cannot be empty"))
  else
    let task_index := index - 1
    let task := m.tasks.getD task_index default
    ({ m with tasks := m.tasks.set task_index { task with label := new_label } },
     .ok task.label)

/-- A task counts as "active status" when it is running or paused. -/
def Task.is_active_status (t : Task) : Bool :=
  t.is_running || t.is_paused

/-- The task-level invariant of spec section 3: the session start is present
exactly while the task is running. -/
def Task.inv (t : Task) : Prop :=
  t.started_at.isSome = true ↔ t.status = TaskStatus.Running

/-- The part of the spec's manager invariant that the code maintains: the
active index, when present, is in bounds and points at a Running or Paused
task. -/
def TaskManager.inv (m : TaskManager) : Prop :=
  ∀ i, m.active_task_index = some i →
    i < m.tasks.length ∧ (m.tasks.getD i default).is_active_status = true

/-- The manager invariant exactly as the spec states it (section 3): in
addition to `TaskManager.inv`, every task other than the active one is
completed (so at most one task is Running or Paused). -/
def TaskManager.spec_inv (m : TaskManager) : Prop :=
  m.inv ∧
  (∀ i, m.active_task_index = some i →
    ∀ j, j < m.tasks.length → j ≠ i → (m.tasks.getD j default).is_completed = true) ∧
  (m.active_task_index = none → ∀ t ∈ m.tasks, t.is_completed = true)

/-- A concrete task builder for counterexamples and witnesses: running tasks
carry their session start, paused and completed ones do not. -/
def sampleTask (label : String) (st : TaskStatus) (ca : Int) : Task :=
  { label := label
    status := st
    created_at := ca
    started_at := if st = TaskStatus.Running then some ca else none
    accumulated_duration := 0 }

/-- Concrete manager: paused, paused-active, completed (reachable states may
carry several paused tasks at once). -/
def sample_mixed : TaskManager :=
  { tasks := [sampleTask "x" .Paused 0, sampleTask "y" .Paused 1,
              sampleTask "z" .Completed 2]
    active_task_index := some 1 }

/-- Concrete manager: one completed task, then the paused active task. -/
def sample_two : TaskManager :=
  { tasks := [sampleTask "c" .Completed 0, sampleTask "p" .Paused 1]
    active_task_index := some 1 }

/-- Concrete manager: ten paused tasks and a running active one - eleven
stored tasks, none of them completed. -/
def sample_eleven : TaskManager :=
  { tasks := (List.range 11).map
      (fun k => sampleTask "t"
        (if k = 10 then TaskStatus.Running else TaskStatus.Paused) k)
    active_task_index := some 10 }

/-- Concrete manager: eleven completed tasks followed by a running active
one - twelve stored tasks. -/
def sample_twelve : TaskManager :=
  { tasks := (List.range 11).map (fun k => sampleTask "c" TaskStatus.Completed k)
      ++ [sampleTask "r" TaskStatus.Running 11]
    active_task_index := some 11 }

/-! ### Characterizations of the task operations -/

/-- Successful `pause` happens exactly from `Running` with a representable
elapsed time, and folds that time into the accumulated duration. -/
theorem Task.pause_ok (t t' : Task) (now : Int) :
    t.pause now = Except.ok t' ↔
      t.status = .Running ∧ ∃ s, t.started_at = some s ∧ ¬ now - s < 0 ∧
        t' = { t with
               status := .Paused
               started_at := none
               accumulated_duration := t.accumulated_duration + (now - s).toNat } := by
  cases hst : t.status
  case Running =>
    cases hsa : t.started_at
    case none => simp [Task.pause, hst, hsa]
    case some s =>
      by_cases hneg : now - s < 0
      · simp [Task.pause, hst, hsa, hneg, eq_comm]
        exact fun hle => absurd hneg (by omega)
      · simp [Task.pause, hst, hsa, hneg, eq_comm]
        intro h
        omega
  case Paused => simp [Task.pause, hst]
  case Completed => simp [Task.pause, hst]

/-- Successful `resume` happens exactly from `Paused` and restarts the
session clock. -/
theorem Task.resume_ok (t t' : Task) (now : Int) :
    t.resume now = Except.ok t' ↔
      t.status = .Paused ∧ t' = { t with status := .Running, started_at := some now } := by
  cases hst : t.status <;> simp [Task.resume, hst, eq_comm]

/-- Successful `complete` happens exactly from `Running` (pausing first) or
from `Paused` (directly). -/
theorem Task.complete_ok (t t' : Task) (now : Int) :
    t.complete now = Except.ok t' ↔
      (t.status = .Running ∧ ∃ s, t.started_at = some s ∧ ¬ now - s < 0 ∧
        t' = { t with
               status := .Completed
               started_at := none
               accumulated_duration := t.accumulated_duration + (now - s).toNat }) ∨
      (t.status = .Paused ∧ t' = { t with status := .Completed }) := by
  cases hst : t.status
  case Running =>
    cases hsa : t.started_at
    case none => simp [Task.complete, Task.pause, hst, hsa]
    case some s =>
      by_cases hneg : now - s < 0
      · simp [Task.complete, Task.pause, hst, hsa, hneg, eq_comm]
        exact fun hle => absurd hneg (by omega)
      · simp [Task.complete, Task.pause, hst, hsa, hneg, eq_comm]
        intro h
        omega
  case Paused => simp [Task.complete, hst, eq_comm]
  case Completed => simp [Task.complete, hst]

/-! ### C6 -/

/-- C6: `total_duration` never fails (it is a total function of the task and
the clock); it equals `accumulated_duration` plus, when the task is running,
the live session `now - started_at`, where a live session that cannot be
represented (the clock went backward, `now < s`) degrades to zero; while not
running the value is the accumulated duration alone, constant in the current
time. -/
theorem C6_total_duration (t : Task) (now now' : Int) :
    (∀ s, t.status = TaskStatus.Running → t.started_at = some s →
      t.total_duration now = t.accumulated_duration + (now - s).toNat ∧
      (now < s → t.total_duration now = t.accumulated_duration)) ∧
    (t.status ≠ TaskStatus.Running →
      t.total_duration now = t.accumulated_duration ∧
      t.total_duration now = t.total_duration now') := by
  constructor
  · intro s hst hsa
    refine ⟨by simp [Task.total_duration, hst, hsa], ?_⟩
    intro hlt
    have hz : (now - s).toNat = 0 := Int.toNat_of_nonpos (by omega)
    simp [Task.total_duration, hst, hsa, hz]
  · intro hns
    obtain ⟨lb, st, ca, sa, ad⟩ := t
    cases st <;> cases sa <;> simp_all [Task.total_duration]

/-- C6 witness: a concrete running task evaluated at a later clock reading and
at one before its session started. -/
theorem C6_total_duration_witness :
    (Task.new "a" 10).total_duration 14 =
      (Task.new "a" 10).accumulated_duration + ((14 : Int) - 10).toNat ∧
    (Task.new "a" 10).total_duration 3 = (Task.new "a" 10).accumulated_duration := by
  refine ⟨((C6_total_duration (Task.new "a" 10) 14 0).1 10 rfl rfl).1, ?_⟩
  exact ((C6_total_duration (Task.new "a" 10) 3 0).1 10 rfl rfl).2 (by decide)

/-! ### C9 -/

/-- C9: the task invariant - the session start is present exactly while the
status is `Running` - holds for `Task.new` and is preserved by every
successful `pause`, `resume` and `complete` (for `pause` and `resume` even
unconditionally: they re-establish it). -/
theorem C9_task_inv (label : String) (now : Int) (t t' : Task) :
    (Task.new label now).inv ∧
    (t.pause now = Except.ok t' → t'.inv) ∧
    (t.resume now = Except.ok t' → t'.inv) ∧
    (t.inv → t.complete now = Except.ok t' → t'.inv) := by
  refine ⟨by simp [Task.new, Task.inv], ?_, ?_, ?_⟩
  · intro h
    obtain ⟨-, s, -, -, rfl⟩ := (Task.pause_ok t t' now).mp h
    simp [Task.inv]
  · intro h
    obtain ⟨-, rfl⟩ := (Task.resume_ok t t' now).mp h
    simp [Task.inv]
  · intro hinv h
    rcases (Task.complete_ok t t' now).mp h with ⟨-, s, -, -, rfl⟩ | ⟨hp, rfl⟩
    · simp [Task.inv]
    · have : t.started_at = none := by
        rcases hsa : t.started_at with - | s
        · rfl
        · have := hinv.mp (by simp [hsa])
          simp [this] at hp
      simp [Task.inv, this]

/-- C9 witness: the invariant after creating, pausing and resuming a concrete
task, and after completing a concrete paused task. -/
theorem C9_task_inv_witness :
    ((Task.new "a" 0).pause 4 = Except.ok
      { label := "a"
        status := .Paused
        created_at := 0
        started_at := none
        accumulated_duration := 4 }) ∧
    Task.inv { label := "a"
               status := .Paused
               created_at := 0
               started_at := none
               accumulated_duration := 4 } := by
  have h : (Task.new "a" 0).pause 4 = Except.ok
      { label := "a"
        status := .Paused
        created_at := 0
        started_at := none
        accumulated_duration := 4 } := by rfl
  exact ⟨h, (C9_task_inv "a" 4 (Task.new "a" 0) _).2.1 h⟩

/-! ### C10 and C7: delete_task -/

/-- On every run of `delete_task` either the manager comes back untouched or
the call succeeded: no error branch mutates anything. -/
theorem delete_task_state (m : TaskManager) (index : Nat) :
    (m.delete_task index).1 = m ∨ (m.delete_task index).2 = Except.ok () := by
  unfold TaskManager.delete_task
  dsimp only
  split
  · exact Or.inl rfl
  · split
    · exact Or.inl rfl
    · split
      · exact Or.inl rfl
      · split
        · exact Or.inl rfl
        · exact Or.inr rfl

/-- C10: `delete_task` is atomic on failure: whenever it returns an error
(zero index, out-of-bounds index, empty collection, or the active-task guard)
the task list and the active index are exactly as they were before the
call. -/
theorem C10_delete_task_atomic (m : TaskManager) (index : Nat) (e : TaskError)
    (h : (m.delete_task index).2 = Except.error e) :
    (m.delete_task index).1 = m := by
  rcases delete_task_state m index with h1 | h2
  · exact h1
  · rw [h2] at h
    cases h

/-- C10 witness: a zero index on the empty manager fails and leaves the
manager unchanged. -/
theorem C10_delete_task_atomic_witness :
    (TaskManager.new.delete_task 0).1 = TaskManager.new :=
  C10_delete_task_atomic TaskManager.new 0
    (.InvalidState "Task index must be greater than 0") (by rfl)

/-- C7: evaluation of `delete_task` at the failing input of the claim.  On an
empty manager the zero-index and out-of-bounds messages are produced as the
claim says, but the empty-collection branch is dead code: its check comes
after the bounds check, and on an empty list every index at least 1 exceeds
the length 0, so index 1 yields the out-of-bounds message, never
"No tasks available to delete". -/
theorem C7_delete_empty_eval :
    TaskManager.new.tasks = [] ∧
    TaskManager.new.delete_task 0 =
      (TaskManager.new, .error (.InvalidState "Task index must be greater than 0")) ∧
    TaskManager.new.delete_task 1 =
      (TaskManager.new, .error (.InvalidState
        "Task index 1 is out of bounds. Valid range: 1-0")) ∧
    (TaskManager.new.delete_task 1).2 ≠
      Except.error (.InvalidState "No tasks available to delete") := by
  have h1 : TaskManager.new.delete_task 1 =
      (TaskManager.new, .error (.InvalidState
        "Task index 1 is out of bounds. Valid range: 1-0")) := by
    rfl
  refine ⟨rfl, by rfl, h1, ?_⟩
  rw [h1]
  simp only [ne_eq, Except.error.injEq, TaskError.InvalidState.injEq]
  decide

/-! ### C2: start_task -/

/-- C2: `start_task` pauses a running active task first (a pause failure
propagates and nothing is added); otherwise it appends `Task.new label` -
status `Running`, zero accumulated duration - at the end, makes its index
(the old length) active, and returns that index; it succeeds whenever the
implicit pause is not needed or succeeds. -/
theorem C2_start_task (m : TaskManager) (label : String) (now : Int) :
    ((Task.new label now).status = .Running ∧
     (Task.new label now).accumulated_duration = 0) ∧
    (m.active_task_index = none →
      m.start_task label now =
        ({ tasks := m.tasks ++ [Task.new label now]
           active_task_index := some m.tasks.length }, .ok m.tasks.length)) ∧
    (∀ i, m.active_task_index = some i →
      (m.tasks.getD i default).is_running = false →
      m.start_task label now =
        ({ tasks := m.tasks ++ [Task.new label now]
           active_task_index := some m.tasks.length }, .ok m.tasks.length)) ∧
    (∀ i e, m.active_task_index = some i →
      (m.tasks.getD i default).is_running = true →
      (m.tasks.getD i default).pause now = .error e →
      m.start_task label now = (m, .error e)) ∧
    (∀ i t', m.active_task_index = some i →
      (m.tasks.getD i default).is_running = true →
      (m.tasks.getD i default).pause now = .ok t' →
      m.start_task label now =
        ({ tasks := m.tasks.set i t' ++ [Task.new label now]
           active_task_index := some m.tasks.length }, .ok m.tasks.length)) := by
  refine ⟨⟨rfl, rfl⟩, ?_, ?_, ?_, ?_⟩
  · intro h
    simp [TaskManager.start_task, h]
  · intro i h hrun
    rw [List.getD_eq_getElem?_getD] at hrun
    simp [TaskManager.start_task, h, hrun]
  · intro i e h hrun hp
    rw [List.getD_eq_getElem?_getD] at hrun hp
    simp [TaskManager.start_task, h, hrun, hp]
  · intro i t' h hrun hp
    rw [List.getD_eq_getElem?_getD] at hrun hp
    simp [TaskManager.start_task, h, hrun, hp, List.length_set]

/-- C2 witness: starting a task on the empty manager appends the new running
task at index 0 and returns 0. -/
theorem C2_start_task_witness :
    TaskManager.new.start_task "a" 5 =
      ({ tasks := [Task.new "a" 5], active_task_index := some 0 }, .ok 0) := by
  exact (C2_start_task TaskManager.new "a" 5).2.1 rfl

/-! ### C5: complete_current_task -/

/-- C5: `complete_current_task` fails with `NoActiveTask` when there is no
active index; otherwise it applies `Task.complete` to the active task - from
`Running` it pauses first (folding the elapsed session into the accumulated
duration) then marks `Completed`, from `Paused` it marks `Completed` directly
with no further folding, and from `Completed` it fails with `TaskCompleted` -
and on success it clears `active_task_index` to `none`. -/
theorem C5_complete_current (m : TaskManager) (now : Int) :
    (m.active_task_index = none →
      m.complete_current_task now = (m, .error .NoActiveTask)) ∧
    (∀ i, m.active_task_index = some i →
      (∀ e, (m.tasks.getD i default).complete now = .error e →
        m.complete_current_task now = (m, .error e)) ∧
      (∀ t', (m.tasks.getD i default).complete now = .ok t' →
        m.complete_current_task now =
          ({ tasks := m.tasks.set i t', active_task_index := none }, .ok ()))) ∧
    (∀ t : Task, ∀ s : Int,
      (t.status = .Running → t.started_at = some s → ¬ now - s < 0 →
        t.complete now = .ok { t with
          status := .Completed
          started_at := none
          accumulated_duration := t.accumulated_duration + (now - s).toNat }) ∧
      (t.status = .Paused →
        t.complete now = .ok { t with status := .Completed }) ∧
      (t.status = .Completed → t.complete now = .error .TaskCompleted)) := by
  refine ⟨?_, ?_, ?_⟩
  · intro h
    simp [TaskManager.complete_current_task, h]
  · intro i h
    constructor
    · intro e he
      rw [List.getD_eq_getElem?_getD] at he
      simp [TaskManager.complete_current_task, h, he]
    · intro t' ht'
      rw [List.getD_eq_getElem?_getD] at ht'
      simp [TaskManager.complete_current_task, h, ht']
  · intro t s
    refine ⟨?_, ?_, ?_⟩
    · intro hst hsa hneg
      exact (Task.complete_ok t _ now).mpr (Or.inl ⟨hst, s, hsa, hneg, rfl⟩)
    · intro hp
      exact (Task.complete_ok t _ now).mpr (Or.inr ⟨hp, rfl⟩)
    · intro hc
      simp [Task.complete, hc]

/-- C5 witness: completing a concrete paused active task marks it completed
with the accumulated duration untouched and clears the active index. -/
theorem C5_complete_current_witness :
    TaskManager.complete_current_task
      { tasks := [{ label := "a"
                    status := .Paused
                    created_at := 0
                    started_at := none
                    accumulated_duration := 7 }]
        active_task_index := some 0 } 3 =
      ({ tasks := [{ label := "a"
                     status := .Completed
                     created_at := 0
                     started_at := none
                     accumulated_duration := 7 }]
         active_task_index := none }, .ok ()) := by
  exact ((C5_complete_current
    { tasks := [{ label := "a"
                  status := .Paused
                  created_at := 0
                  started_at := none
                  accumulated_duration := 7 }]
      active_task_index := some 0 } 3).2.1 0 rfl).2 _ (by rfl)

/-! ### C8: rename_task (modelled from the spec) -/

/-- C8: `rename_task` validates its 1-based index identically to
`delete_task` (same checks, same order, same messages); an empty-after-trim
label fails with a validation error distinct from `InvalidState` whose
message contains "empty" and changes nothing; otherwise it swaps the label -
whatever the task's status - returns the previous one and leaves
`active_task_index` unchanged. -/
theorem C8_rename_task (m : TaskManager) (index : Nat) (new_label : String) :
    (index = 0 →
      m.rename_task index new_label =
        (m, .error (.InvalidState "Task index must be greater than 0")) ∧
      ∃ e, (m.rename_task index new_label).2 = .error e ∧
        (m.delete_task index).2 = .error e) ∧
    (index > m.tasks.length → index ≠ 0 →
      m.rename_task index new_label =
        (m, .error (.InvalidState ("Task index " ++ toString index ++
          " is out of bounds. Valid range: 1-" ++ toString m.tasks.length))) ∧
      ∃ e, (m.rename_task index new_label).2 = .error e ∧
        (m.delete_task index).2 = .error e) ∧
    (index ≠ 0 → index ≤ m.tasks.length →
      new_label.toList.all Char.isWhitespace = true →
      m.rename_task index new_label =
        (m, .error (.ValidationError "Task label cannot be empty")) ∧
      "Task label cannot be empty" = "Task label cannot be " ++ "empty" ++ "") ∧
    (index ≠ 0 → index ≤ m.tasks.length →
      new_label.toList.all Char.isWhitespace = false →
      m.rename_task index new_label =
        ({ m with
            tasks :=
              m.tasks.set (index - 1)
                ({ m.tasks.getD (index - 1) default with label := new_label }) },
         .ok (m.tasks.getD (index - 1) default).label) ∧
      (m.rename_task index new_label).1.active_task_index = m.active_task_index) := by
  have hne : index ≠ 0 → index ≤ m.tasks.length → m.tasks.isEmpty = false := by
    intro h0 hle
    cases htl : m.tasks with
    | nil => rw [htl] at hle; simp at hle; omega
    | cons a l => rfl
  refine ⟨?_, ?_, ?_, ?_⟩
  · intro h0
    subst h0
    exact ⟨rfl, .InvalidState "Task index must be greater than 0", rfl, rfl⟩
  · intro hgt h0
    have hr : m.rename_task index new_label =
        (m, .error (.InvalidState ("Task index " ++ toString index ++
          " is out of bounds. Valid range: 1-" ++ toString m.tasks.length))) := by
      unfold TaskManager.rename_task
      rw [if_neg h0, if_pos hgt]
    have hd : (m.delete_task index).2 =
        .error (.InvalidState ("Task index " ++ toString index ++
          " is out of bounds. Valid range: 1-" ++ toString m.tasks.length)) := by
      unfold TaskManager.delete_task
      rw [if_neg h0, if_pos hgt]
    exact ⟨hr, _, by rw [hr], hd⟩
  · intro h0 hle htrim
    have hgt : ¬ index > m.tasks.length := by omega
    have hemp : ¬ m.tasks.isEmpty = true := by simp [hne h0 hle]
    refine ⟨?_, rfl⟩
    unfold TaskManager.rename_task
    rw [if_neg h0, if_neg hgt, if_neg hemp, if_pos htrim]
  · intro h0 hle htrim
    have hgt : ¬ index > m.tasks.length := by omega
    have hemp : ¬ m.tasks.isEmpty = true := by simp [hne h0 hle]
    have hwk : ¬ new_label.toList.all Char.isWhitespace = true := by rw [htrim]; simp
    have hres : m.rename_task index new_label =
        ({ m with
            tasks :=
              m.tasks.set (index - 1)
                ({ m.tasks.getD (index - 1) default with label := new_label }) },
         .ok (m.tasks.getD (index - 1) default).label) := by
      unfold TaskManager.rename_task
      rw [if_neg h0, if_neg hgt, if_neg hemp, if_neg hwk]
    exact ⟨hres, by rw [hres]⟩

/-- C8 witness: renaming a concrete completed task succeeds and returns the
old label, and the empty-label rename fails with the validation error. -/
theorem C8_rename_task_witness :
    TaskManager.rename_task
      { tasks := [{ label := "a"
                    status := .Completed
                    created_at := 0
                    started_at := none
                    accumulated_duration := 2 }]
        active_task_index := none } 1 "b" =
      ({ tasks := [{ label := "b"
                     status := .Completed
                     created_at := 0
                     started_at := none
                     accumulated_duration := 2 }]
         active_task_index := none }, .ok "a") ∧
    (TaskManager.rename_task
      { tasks := [{ label := "a"
                    status := .Completed
                    created_at := 0
                    started_at := none
                    accumulated_duration := 2 }]
        active_task_index := none } 1 "  ").2 =
      .error (.ValidationError "Task label cannot be empty") := by
  constructor
  · exact ((C8_rename_task
      { tasks := [{ label := "a"
                    status := .Completed
                    created_at := 0
                    started_at := none
                    accumulated_duration := 2 }]
        active_task_index := none } 1 "b").2.2.2 (by decide) (by decide) (by decide)).1
  · have h := ((C8_rename_task
      { tasks := [{ label := "a"
                    status := .Completed
                    created_at := 0
                    started_at := none
                    accumulated_duration := 2 }]
        active_task_index := none } 1 "  ").2.2.1 (by decide) (by decide) (by decide)).1
    rw [h]

/-! ### Helper lemmas for the manager invariant -/

/-- A task that is not completed is running or paused. -/
theorem Task.active_status_of_not_completed (t : Task) (h : t.is_completed = false) :
    t.is_active_status = true := by
  cases hst : t.status <;>
    simp [Task.is_active_status, Task.is_running, Task.is_paused,
      Task.is_completed, hst] at h ⊢

/-- An in-bounds `getD` is a member of the list. -/
theorem getD_mem_of_lt {l : List Task} {n : Nat} (h : n < l.length) :
    l.getD n default ∈ l := by
  rw [List.getD_eq_getElem?_getD, List.getElem?_eq_getElem h]
  exact List.getElem_mem h

/-- A pair of `enum` reads back the list at its first component. -/
theorem mem_enum_getElem? {l : List Task} {p : Nat × Task} (h : p ∈ l.enum) :
    l[p.1]? = some p.2 := by
  rcases List.mem_iff_getElem?.mp h with ⟨n, hn⟩
  rw [List.getElem?_enum] at hn
  cases hl : l[n]? with
  | none => rw [hl] at hn; cases hn
  | some a =>
    rw [hl] at hn
    cases hn
    simpa using hl

/-- First component of the index-rebuilding fold of `cleanup_old_tasks`: it
appends the second components in order. -/
theorem cleanup_foldl_fst (aid : Option Nat) (l : List (Nat × Task))
    (acc : List Task × Option Nat) :
    (List.foldl
      (fun a p => (a.1 ++ [p.2], if aid = some p.1 then some a.1.length else a.2))
      acc l).1 = acc.1 ++ l.map Prod.snd := by
  induction l generalizing acc with
  | nil => simp
  | cons p rest ih => simp [List.foldl_cons, ih]

/-- Second component of the index-rebuilding fold of `cleanup_old_tasks`: a
produced index points inside the rebuilt prefix, at the second component of a
pair whose first component is the active id. -/
theorem cleanup_foldl_snd (aid : Option Nat) (l : List (Nat × Task))
    (acc : List Task × Option Nat) :
    ∀ j,
      (List.foldl
        (fun a p => (a.1 ++ [p.2], if aid = some p.1 then some a.1.length else a.2))
        acc l).2 = some j →
      acc.2 = some j ∨
      ∃ p ∈ l, aid = some p.1 ∧
        (List.foldl
          (fun a p => (a.1 ++ [p.2], if aid = some p.1 then some a.1.length else a.2))
          acc l).1.getD j default = p.2 ∧
        j < (List.foldl
          (fun a p => (a.1 ++ [p.2], if aid = some p.1 then some a.1.length else a.2))
          acc l).1.length := by
  induction l generalizing acc with
  | nil =>
    intro j h
    exact Or.inl h
  | cons p rest ih =>
    intro j h
    rw [List.foldl_cons] at h
    rcases ih _ j h with hacc | ⟨q, hq, haid, hget, hlt⟩
    · by_cases hp : aid = some p.1
      · rw [if_pos hp] at hacc
        dsimp at hacc
        injection hacc with hacc
        refine Or.inr ⟨p, List.mem_cons_self p rest, hp, ?_, ?_⟩
        · rw [List.foldl_cons, cleanup_foldl_fst, ← hacc]
          dsimp
          rw [List.append_assoc, List.getD_eq_getElem?_getD,
            List.getElem?_append_right (Nat.le_refl _)]
          simp
        · rw [List.foldl_cons, cleanup_foldl_fst, ← hacc]
          simp
      · rw [if_neg hp] at hacc
        exact Or.inl hacc
    · refine Or.inr ⟨q, List.mem_cons_of_mem p hq, haid, ?_, ?_⟩
      · rw [List.foldl_cons]
        exact hget
      · rw [List.foldl_cons]
        exact hlt

/-- The manager obtained by appending a fresh task and activating it
satisfies the maintained invariant. -/
theorem inv_append_new (ts : List Task) (label : String) (now : Int) :
    TaskManager.inv
      { tasks := ts ++ [Task.new label now]
        active_task_index := some ((ts ++ [Task.new label now]).length - 1) } := by
  intro i hi
  injection hi with hi
  subst hi
  constructor
  · simp
  · have hl : (ts ++ [Task.new label now]).length - 1 = ts.length := by simp
    rw [hl, List.getD_eq_getElem?_getD, List.getElem?_concat_length]
    rfl

/-- `start_task` re-establishes the maintained invariant. -/
theorem inv_preserved_start (m : TaskManager) (label : String) (now : Int)
    (h : m.inv) : ((m.start_task label now).1).inv := by
  unfold TaskManager.start_task
  cases ha : m.active_task_index with
  | none =>
    simpa using inv_append_new m.tasks label now
  | some i0 =>
    by_cases hrun : (m.tasks[i0]?.getD default).is_running = true
    · cases hp : (m.tasks[i0]?.getD default).pause now with
      | error e => simpa [ha, hrun, hp] using h
      | ok t2 => simpa [ha, hrun, hp] using inv_append_new (m.tasks.set i0 t2) label now
    · simpa [ha, hrun] using inv_append_new m.tasks label now

/-- `pause_current_task` preserves the maintained invariant. -/
theorem inv_preserved_pause (m : TaskManager) (now : Int)
    (h : m.inv) : ((m.pause_current_task now).1).inv := by
  cases ha : m.active_task_index with
  | none => simpa [TaskManager.pause_current_task, ha] using h
  | some i =>
    cases hp : (m.tasks[i]?.getD default).pause now with
    | error e => simpa [TaskManager.pause_current_task, ha, hp] using h
    | ok t2 =>
      have hres : (m.pause_current_task now).1 = { m with tasks := m.tasks.set i t2 } := by
        simp [TaskManager.pause_current_task, ha, hp]
      rw [hres]
      obtain ⟨hax, -⟩ := h i ha
      obtain ⟨-, s, -, -, rfl⟩ := (Task.pause_ok _ _ now).mp hp
      intro j hj
      rw [show ({ m with tasks := m.tasks.set i _ } : TaskManager).active_task_index
            = m.active_task_index from rfl, ha] at hj
      injection hj with hj
      subst hj
      constructor
      · simpa using hax
      · rw [List.getD_eq_getElem?_getD, List.getElem?_set_self hax]
        rfl

/-- `resume_current_task` preserves the maintained invariant. -/
theorem inv_preserved_resume (m : TaskManager) (now : Int)
    (h : m.inv) : ((m.resume_current_task now).1).inv := by
  cases ha : m.active_task_index with
  | none => simpa [TaskManager.resume_current_task, ha] using h
  | some i =>
    cases hp : (m.tasks[i]?.getD default).resume now with
    | error e => simpa [TaskManager.resume_current_task, ha, hp] using h
    | ok t2 =>
      have hres : (m.resume_current_task now).1 = { m with tasks := m.tasks.set i t2 } := by
        simp [TaskManager.resume_current_task, ha, hp]
      rw [hres]
      obtain ⟨hax, -⟩ := h i ha
      obtain ⟨-, rfl⟩ := (Task.resume_ok _ _ now).mp hp
      intro j hj
      rw [show ({ m with tasks := m.tasks.set i _ } : TaskManager).active_task_index
            = m.active_task_index from rfl, ha] at hj
      injection hj with hj
      subst hj
      constructor
      · simpa using hax
      · rw [List.getD_eq_getElem?_getD, List.getElem?_set_self hax]
        rfl

/-- `complete_current_task` preserves the maintained invariant (on success the
active index is cleared, making it vacuous). -/
theorem inv_preserved_complete (m : TaskManager) (now : Int)
    (h : m.inv) : ((m.complete_current_task now).1).inv := by
  cases ha : m.active_task_index with
  | none => simpa [TaskManager.complete_current_task, ha] using h
  | some i =>
    cases hp : (m.tasks[i]?.getD default).complete now with
    | error e => simpa [TaskManager.complete_current_task, ha, hp] using h
    | ok t2 =>
      have hres : (m.complete_current_task now).1 =
          { tasks := m.tasks.set i t2, active_task_index := none } := by
        simp [TaskManager.complete_current_task, ha, hp]
      rw [hres]
      intro j hj
      cases hj

/-- Shape of a successful `delete_task`: the index was valid, the task at the
0-based position was removed, and the active index was re-based. -/
theorem delete_task_ok_shape (m : TaskManager) (index : Nat)
    (h : (m.delete_task index).2 = Except.ok ()) :
    index ≠ 0 ∧ index ≤ m.tasks.length ∧
    (m.delete_task index).1 =
      { tasks := m.tasks.eraseIdx (index - 1)
        active_task_index :=
          match m.active_task_index with
          | some a =>
            if index - 1 < a then some (a - 1)
            else if index - 1 = a then none
            else some a
          | none => none } := by
  by_cases h0 : index = 0
  · rw [show (m.delete_task index).2 = Except.error
        (.InvalidState "Task index must be greater than 0") from by
      unfold TaskManager.delete_task; rw [if_pos h0]] at h
    cases h
  · by_cases hgt : index > m.tasks.length
    · rw [show (m.delete_task index).2 = Except.error
          (.InvalidState ("Task index " ++ toString index ++
            " is out of bounds. Valid range: 1-" ++ toString m.tasks.length)) from by
        unfold TaskManager.delete_task; rw [if_neg h0, if_pos hgt]] at h
      cases h
    · have hemp : ¬ m.tasks.isEmpty = true := by
        intro hc
        rw [List.isEmpty_iff] at hc
        rw [hc] at hgt
        simp at hgt
        omega
      refine ⟨h0, by omega, ?_⟩
      unfold TaskManager.delete_task at h ⊢
      rw [if_neg h0, if_neg hgt, if_neg hemp] at h ⊢
      cases ha : m.active_task_index with
      | none => simp [ha]
      | some a =>
        by_cases heq : a = index - 1
        · by_cases hrun : (m.tasks[index - 1]?.getD default).is_running = true
          · simp [ha, heq, hrun] at h
          · by_cases hpau : (m.tasks[index - 1]?.getD default).is_paused = true
            · simp [ha, heq, hrun, hpau] at h
            · simp [ha, heq, hrun, hpau]
        · simp [ha, heq]

/-- `delete_task` preserves the maintained invariant. -/
theorem inv_preserved_delete (m : TaskManager) (index : Nat)
    (h : m.inv) : ((m.delete_task index).1).inv := by
  rcases delete_task_state m index with h1 | h2
  · rw [h1]; exact h
  · obtain ⟨h0, hle, hres⟩ := delete_task_ok_shape m index h2
    rw [hres]
    intro j hj
    dsimp only at hj
    cases ha : m.active_task_index with
    | none =>
      rw [ha] at hj
      cases hj
    | some a =>
      rw [ha] at hj
      dsimp only at hj
      obtain ⟨hax, has⟩ := h a ha
      by_cases hlt : index - 1 < a
      · rw [if_pos hlt] at hj
        injection hj with hj
        subst hj
        constructor
        · rw [List.length_eraseIdx, if_pos (by omega)]
          omega
        · rw [List.getD_eq_getElem?_getD, List.getElem?_eraseIdx,
            if_neg (by omega : ¬ a - 1 < index - 1),
            show a - 1 + 1 = a from by omega, ← List.getD_eq_getElem?_getD]
          exact has
      · by_cases heq : index - 1 = a
        · rw [if_neg hlt, if_pos heq] at hj
          cases hj
        · rw [if_neg hlt, if_neg heq] at hj
          injection hj with hj
          subst hj
          constructor
          · rw [List.length_eraseIdx, if_pos (by omega)]
            omega
          · rw [List.getD_eq_getElem?_getD, List.getElem?_eraseIdx,
              if_pos (by omega : a < index - 1), ← List.getD_eq_getElem?_getD]
            exact has

/-- `delete_completed_tasks` preserves the maintained invariant. -/
theorem inv_preserved_delete_completed (m : TaskManager)
    (h : m.inv) : ((m.delete_completed_tasks).1).inv := by
  by_cases hemp : m.tasks.isEmpty = true
  · simpa [TaskManager.delete_completed_tasks, hemp] using h
  · by_cases hcnt : (m.tasks.filter (fun t => t.is_completed)).length = 0
    · simpa [TaskManager.delete_completed_tasks, hemp, hcnt] using h
    · have hres : (m.delete_completed_tasks).1 =
          { tasks := m.tasks.filter (fun t => !t.is_completed)
            active_task_index :=
              match m.active_task_index with
              | some a =>
                if (m.tasks.filter (fun t => !t.is_completed)).length
                    ≤ a - (m.tasks.filter (fun t => t.is_completed)).length then none
                else some (a - (m.tasks.filter (fun t => t.is_completed)).length)
              | none => none } := by
        unfold TaskManager.delete_completed_tasks
        rw [if_neg hemp, if_neg hcnt]
      rw [hres]
      intro j hj
      dsimp only at hj
      cases ha : m.active_task_index with
      | none =>
        rw [ha] at hj
        cases hj
      | some a =>
        rw [ha] at hj
        dsimp only at hj
        by_cases hoob : (m.tasks.filter (fun t => !t.is_completed)).length
            ≤ a - (m.tasks.filter (fun t => t.is_completed)).length
        · rw [if_pos hoob] at hj
          cases hj
        · rw [if_neg hoob] at hj
          injection hj with hj
          subst hj
          have hjlt : a - (m.tasks.filter (fun t => t.is_completed)).length
              < (m.tasks.filter (fun t => !t.is_completed)).length := by omega
          refine ⟨hjlt, ?_⟩
          have hmem := getD_mem_of_lt hjlt
          rw [List.mem_filter] at hmem
          refine Task.active_status_of_not_completed _ ?_
          cases hc : ((m.tasks.filter (fun t => !t.is_completed)).getD
              (a - (m.tasks.filter (fun t => t.is_completed)).length) default).is_completed
          · rfl
          · rw [hc] at hmem
            simp at hmem

/-- `cleanup_old_tasks` preserves the maintained invariant: the rebuilt
active index points (inside the rebuilt prefix) at the pair carrying the old
active index, whose task is running or paused. -/
theorem inv_preserved_cleanup (m : TaskManager) (h : m.inv) :
    (m.cleanup_old_tasks).inv := by
  by_cases hlen : m.tasks.length ≤ MAX_TASKS
  · unfold TaskManager.cleanup_old_tasks
    rw [if_pos hlen]
    exact h
  · simp only [TaskManager.cleanup_old_tasks, hlen, if_false]
    intro j hj
    dsimp only at hj
    rcases cleanup_foldl_snd m.active_task_index _ _ j hj with hacc | ⟨p, hp, haid, hget, hlt⟩
    · cases hacc
    · obtain ⟨hax, has⟩ := h p.1 haid
      have hpe : p ∈ m.tasks.enum := by
        have hp2 := hp
        rw [List.partition_eq_filter_filter] at hp2
        exact List.mem_of_mem_filter hp2
      have hidx := mem_enum_getElem? hpe
      have hact : p.2.is_active_status = true := by
        rw [List.getD_eq_getElem?_getD, hidx] at has
        exact has
      constructor
      · simp only [List.length_append]
        omega
      · rw [List.getD_eq_getElem?_getD, List.getElem?_append, if_pos hlt,
          ← List.getD_eq_getElem?_getD, hget]
        exact hact

/-! ### C1 -/

/-- C1 (amended): the manager invariant the code actually maintains -
whenever `active_task_index = some i`, `i` is in bounds and `tasks[i]` has
status Running or Paused - is preserved by every operation (`start_task`,
`pause_current_task`, `resume_current_task`, `complete_current_task`,
`delete_task`, `delete_completed_tasks`, `cleanup_old_tasks`).  The claimed
uniqueness part ("no other task is Running or Paused") is not an invariant of
the code: see the counterexample. -/
theorem C1_inv_preserved (m : TaskManager) (label : String) (now : Int)
    (index : Nat) (h : m.inv) :
    ((m.start_task label now).1).inv ∧
    ((m.pause_current_task now).1).inv ∧
    ((m.resume_current_task now).1).inv ∧
    ((m.complete_current_task now).1).inv ∧
    ((m.delete_task index).1).inv ∧
    ((m.delete_completed_tasks).1).inv ∧
    (m.cleanup_old_tasks).inv :=
  ⟨inv_preserved_start m label now h, inv_preserved_pause m now h,
   inv_preserved_resume m now h, inv_preserved_complete m now h,
   inv_preserved_delete m index h, inv_preserved_delete_completed m h,
   inv_preserved_cleanup m h⟩

/-- C1 counterexample: a manager holding the single running task `a`
satisfies the claimed invariant, yet after `start_task "b"` the old task is
Paused and the new one Running - two tasks with status in {Running, Paused} -
so the claimed "no other task in the manager's task list has status Running
or Paused" is violated while the new state is a perfectly normal result of
the code (the spec's own scenario "start(A), start(B) yields A Paused, B
Running"). -/
theorem C1_single_active_counterexample :
    TaskManager.spec_inv
      { tasks := [sampleTask "a" .Running 0], active_task_index := some 0 } ∧
    (TaskManager.start_task
      { tasks := [sampleTask "a" .Running 0], active_task_index := some 0 }
      "b" 5).1 =
      { tasks := [{ label := "a"
                    status := .Paused
                    created_at := 0
                    started_at := none
                    accumulated_duration := 5 }, Task.new "b" 5]
        active_task_index := some 1 } ∧
    ¬ TaskManager.spec_inv
      (TaskManager.start_task
        { tasks := [sampleTask "a" .Running 0], active_task_index := some 0 }
        "b" 5).1 := by
  have hres : (TaskManager.start_task
      { tasks := [sampleTask "a" .Running 0], active_task_index := some 0 }
      "b" 5).1 =
      { tasks := [{ label := "a"
                    status := .Paused
                    created_at := 0
                    started_at := none
                    accumulated_duration := 5 }, Task.new "b" 5]
        active_task_index := some 1 } := by decide
  refine ⟨⟨?_, ?_, ?_⟩, hres, ?_⟩
  · intro i hi
    injection hi with hi
    subst hi
    exact ⟨by decide, by decide⟩
  · intro i hi j hjlen hne
    injection hi with hi
    subst hi
    simp at hjlen
    omega
  · intro hc
    cases hc
  · intro hspec
    rw [hres] at hspec
    have h0 := hspec.2.1 1 rfl 0 (by decide) (by decide)
    revert h0
    decide

/-- C1 witness: the amended invariant applied to a concrete manager holding
one paused task, discharging the invariant hypothesis there. -/
theorem C1_inv_preserved_witness :
    ((TaskManager.start_task
      { tasks := [sampleTask "a" .Paused 0], active_task_index := some 0 }
      "b" 5).1).inv ∧
    ((TaskManager.delete_completed_tasks
      { tasks := [sampleTask "a" .Paused 0], active_task_index := some 0 }).1).inv := by
  have h : TaskManager.inv
      { tasks := [sampleTask "a" .Paused 0], active_task_index := some 0 } := by
    intro i hi
    injection hi with hi
    subst hi
    exact ⟨by decide, by decide⟩
  have hall := C1_inv_preserved
    { tasks := [sampleTask "a" .Paused 0], active_task_index := some 0 }
    "b" 5 1 h
  exact ⟨hall.1, hall.2.2.2.2.2.1⟩

/-! ### C3: delete_completed_tasks -/

/-- A running-or-paused task is not completed. -/
theorem Task.not_completed_of_active_status (t : Task)
    (h : t.is_active_status = true) : t.is_completed = false := by
  cases hst : t.status <;>
    simp [Task.is_active_status, Task.is_running, Task.is_paused,
      Task.is_completed, hst] at h ⊢

/-- Under the spec invariant with an active task, the non-completed tasks are
exactly the active one, and the completed count is everything else. -/
theorem filter_of_spec_inv (m : TaskManager) (i : Nat)
    (h : m.spec_inv) (ha : m.active_task_index = some i) :
    m.tasks.filter (fun t => !t.is_completed) = [m.tasks.getD i default] ∧
    (m.tasks.filter (fun t => t.is_completed)).length = m.tasks.length - 1 := by
  obtain ⟨hinv, hother, -⟩ := h
  obtain ⟨hax, has⟩ := hinv i ha
  have htake : ∀ t ∈ m.tasks.take i, t.is_completed = true := by
    intro t ht
    rcases List.mem_iff_getElem.mp ht with ⟨j, hj, hget⟩
    have hjlen : j < m.tasks.length := by
      rw [List.length_take] at hj
      omega
    have hji : j < i := by
      rw [List.length_take] at hj
      omega
    have := hother i ha j hjlen (by omega)
    rw [List.getD_eq_getElem?_getD, List.getElem?_eq_getElem hjlen] at this
    rw [List.getElem_take] at hget
    rw [← hget]
    exact this
  have hdrop : ∀ t ∈ m.tasks.drop (i + 1), t.is_completed = true := by
    intro t ht
    rcases List.mem_iff_getElem.mp ht with ⟨j, hj, hget⟩
    have hjlen : i + 1 + j < m.tasks.length := by
      rw [List.length_drop] at hj
      omega
    have := hother i ha (i + 1 + j) hjlen (by omega)
    rw [List.getD_eq_getElem?_getD, List.getElem?_eq_getElem hjlen] at this
    rw [List.getElem_drop] at hget
    rw [← hget]
    exact this
  have hdecomp : m.tasks =
      m.tasks.take i ++ m.tasks.getD i default :: m.tasks.drop (i + 1) := by
    rw [List.getD_eq_getElem?_getD, List.getElem?_eq_getElem hax]
    rw [show (some m.tasks[i]).getD default = m.tasks[i] from rfl]
    rw [← List.drop_eq_getElem_cons hax, List.take_append_drop]
  have hnc : (m.tasks.getD i default).is_completed = false :=
    Task.not_completed_of_active_status _ has
  constructor
  · conv_lhs => rw [hdecomp]
    rw [List.filter_append, List.filter_cons]
    rw [List.filter_eq_nil_iff.mpr (by intro t ht; rw [htake t ht]; simp)]
    rw [List.filter_eq_nil_iff.mpr (by intro t ht; rw [hdrop t ht]; simp)]
    rw [if_pos (by rw [hnc]; simp)]
    simp
  · conv_lhs => rw [hdecomp]
    rw [List.filter_append, List.filter_cons]
    rw [List.filter_eq_self.mpr htake, List.filter_eq_self.mpr hdrop]
    rw [if_neg (by rw [hnc]; simp)]
    rw [List.length_append, List.length_take, List.length_drop]
    have : i ⊓ m.tasks.length = i := by omega
    rw [this]
    omega

/-- C3 (amended): `delete_completed_tasks` removes exactly the completed
tasks, preserves the relative order of the rest, never fails and returns the
number removed.  The active index, however, is re-based by subtracting the
TOTAL number of removed tasks (saturating at zero, then cleared if out of
bounds), not the number of removed tasks preceding it; the two coincide -
and the active task is preserved, never cleared - whenever the manager
satisfies the spec invariant (every task other than the active one
completed). -/
theorem C3_delete_completed (m : TaskManager) :
    (m.delete_completed_tasks).2 =
      Except.ok ((m.tasks.filter (fun t => t.is_completed)).length) ∧
    (m.delete_completed_tasks).1.tasks = m.tasks.filter (fun t => !t.is_completed) ∧
    ((m.delete_completed_tasks).1.tasks).Sublist m.tasks ∧
    (∀ t ∈ (m.delete_completed_tasks).1.tasks, t.is_completed = false) ∧
    (∀ t ∈ m.tasks, t.is_completed = false → t ∈ (m.delete_completed_tasks).1.tasks) ∧
    (m.spec_inv →
      (m.delete_completed_tasks).1.current_task = m.current_task ∧
      (m.delete_completed_tasks).1.active_task_index.isSome
        = m.active_task_index.isSome) := by
  have hpair : (m.delete_completed_tasks).2 =
        Except.ok ((m.tasks.filter (fun t => t.is_completed)).length) ∧
      (m.delete_completed_tasks).1.tasks
        = m.tasks.filter (fun t => !t.is_completed) := by
    by_cases hemp : m.tasks.isEmpty = true
    · rw [List.isEmpty_iff] at hemp
      constructor <;> simp [TaskManager.delete_completed_tasks, hemp]
    · by_cases hcnt : (m.tasks.filter (fun t => t.is_completed)).length = 0
      · have hall : ∀ t ∈ m.tasks, t.is_completed = false := by
          intro t ht
          have := List.filter_eq_nil_iff.mp (List.length_eq_zero.mp hcnt) t ht
          cases hc : t.is_completed
          · rfl
          · rw [hc] at this; simp at this
        have hself : m.tasks.filter (fun t => !t.is_completed) = m.tasks :=
          List.filter_eq_self.mpr (by intro t ht; rw [hall t ht]; simp)
        have hbool : m.tasks.isEmpty = false := by
          cases hb : m.tasks.isEmpty
          · rfl
          · exact absurd hb hemp
        constructor <;>
          simp [TaskManager.delete_completed_tasks, hbool, hcnt, hself]
      · have hbool : m.tasks.isEmpty = false := by
          cases hb : m.tasks.isEmpty
          · rfl
          · exact absurd hb hemp
        have hres : m.delete_completed_tasks =
            ({ tasks := m.tasks.filter (fun t => !t.is_completed)
               active_task_index :=
                 match m.active_task_index with
                 | some a =>
                   if (m.tasks.filter (fun t => !t.is_completed)).length
                       ≤ a - (m.tasks.filter (fun t => t.is_completed)).length
                   then none
                   else some (a - (m.tasks.filter (fun t => t.is_completed)).length)
                 | none => none },
             Except.ok ((m.tasks.filter (fun t => t.is_completed)).length)) := by
          unfold TaskManager.delete_completed_tasks
          rw [if_neg (by rw [hbool]; simp), if_neg hcnt]
        rw [hres]
        exact ⟨rfl, rfl⟩
  refine ⟨hpair.1, hpair.2, ?_, ?_, ?_, ?_⟩
  · rw [hpair.2]
    exact List.filter_sublist m.tasks
  · intro t ht
    rw [hpair.2, List.mem_filter] at ht
    cases hc : t.is_completed
    · rfl
    · rw [hc] at ht
      simp at ht
  · intro t ht hnc
    rw [hpair.2, List.mem_filter]
    exact ⟨ht, by rw [hnc]; simp⟩
  · intro hspec
    cases ha : m.active_task_index with
    | none =>
      have hact : (m.delete_completed_tasks).1.active_task_index = none := by
        by_cases hemp : m.tasks.isEmpty = true
        · simp [TaskManager.delete_completed_tasks, hemp, ha]
        · by_cases hcnt : (m.tasks.filter (fun t => t.is_completed)).length = 0
          · simp [TaskManager.delete_completed_tasks, hemp, hcnt, ha]
          · simp [TaskManager.delete_completed_tasks, hemp, hcnt, ha]
      rw [TaskManager.current_task, TaskManager.current_task, hact, ha]
      simp
    | some i =>
      obtain ⟨hone, hcount⟩ := filter_of_spec_inv m i hspec ha
      have hax := (hspec.1 i ha).1
      by_cases hcnt : (m.tasks.filter (fun t => t.is_completed)).length = 0
      · have hres : m.delete_completed_tasks = (m, Except.ok 0) := by
          by_cases hemp : m.tasks.isEmpty = true
          · rw [List.isEmpty_iff] at hemp
            rw [hemp] at hax
            simp at hax
          · have hbool : m.tasks.isEmpty = false := by
              cases hb : m.tasks.isEmpty
              · rfl
              · exact absurd hb hemp
            unfold TaskManager.delete_completed_tasks
            rw [if_neg (by rw [hbool]; simp), if_pos hcnt]
        rw [hres]
        exact ⟨rfl, by rw [ha]⟩
      · have hlen1 : 1 ≤ m.tasks.length := by omega
        have hbool : m.tasks.isEmpty = false := by
          cases htl : m.tasks with
          | nil => rw [htl] at hax; simp at hax
          | cons a l => rfl
        have hres : m.delete_completed_tasks =
            ({ tasks := m.tasks.filter (fun t => !t.is_completed)
               active_task_index :=
                 some (i - (m.tasks.filter (fun t => t.is_completed)).length) },
             Except.ok ((m.tasks.filter (fun t => t.is_completed)).length)) := by
          unfold TaskManager.delete_completed_tasks
          rw [if_neg (by rw [hbool]; simp), if_neg hcnt]
          rw [ha]
          dsimp only
          rw [if_neg (by
            rw [hone]
            simp only [List.length_cons, List.length_nil]
            omega)]
        rw [hres]
        constructor
        · rw [TaskManager.current_task, TaskManager.current_task, ha]
          dsimp only
          rw [hone]
          have : i - (m.tasks.filter (fun t => t.is_completed)).length = 0 := by
            rw [hcount]
            omega
          rw [this]
          rfl
        · rfl

/-- C3 counterexample: `sample_mixed` holds a paused task at 0, the paused
ACTIVE task at 1 and a completed task at 2.  No removed task precedes
position 1, so the claim demands the active index stay 1; the code subtracts
the total removed count and yields 0, after which `current_task` returns the
wrong task. -/
theorem C3_reindex_counterexample :
    ((sample_mixed.delete_completed_tasks).1).active_task_index = some 0 ∧
    ((sample_mixed.tasks.take 1).filter (fun t => t.is_completed)).length = 0 ∧
    ((sample_mixed.delete_completed_tasks).1).active_task_index ≠ some (1 - 0) ∧
    ((sample_mixed.delete_completed_tasks).1).current_task
      ≠ sample_mixed.current_task := by
  refine ⟨by decide, by decide, by decide, by decide⟩

/-- C3 witness: on `sample_two` (a concrete spec-invariant manager: one
completed, one paused active), the call removes one task, returns 1 and keeps
the active task reachable. -/
theorem C3_delete_completed_witness :
    (sample_two.delete_completed_tasks).2 = Except.ok 1 ∧
    (sample_two.delete_completed_tasks).1.current_task
      = sample_two.current_task := by
  have hspec : sample_two.spec_inv := by
    refine ⟨?_, ?_, ?_⟩
    · intro i hi
      injection hi with hi
      subst hi
      exact ⟨by decide, by decide⟩
    · intro i hi j hjlen hne
      injection hi with hi
      subst hi
      have hj1 : j < 2 := by
        simpa [sample_two] using hjlen
      interval_cases j
      · decide
      · omega
    · intro hc
      cases hc
  have hthm := C3_delete_completed sample_two
  refine ⟨?_, (hthm.2.2.2.2.2 hspec).1⟩
  rw [hthm.1]
  exact congrArg Except.ok (by decide)

/-! ### C4: cleanup_old_tasks -/

/-- Filtering an enumeration on a property of the element and projecting back
gives the plain filter. -/
theorem enumFrom_filter_map_snd (q : Task → Bool) (l : List Task) :
    ∀ n, ((List.enumFrom n l).filter (fun p => q p.2)).map Prod.snd
      = l.filter q := by
  induction l with
  | nil => intro n; rfl
  | cons a l ih =>
    intro n
    rw [List.enumFrom, List.filter_cons, List.filter_cons]
    cases hq : q a
    · simpa [hq] using ih (n + 1)
    · simpa [hq] using ih (n + 1)

/-- The pair at an in-bounds position is a member of the enumeration. -/
theorem enum_mem_of_lt {l : List Task} {i : Nat} (h : i < l.length) :
    (i, l.getD i default) ∈ l.enum := by
  rw [List.getD_eq_getElem?_getD, List.getElem?_eq_getElem h]
  refine List.mem_iff_getElem?.mpr ⟨i, ?_⟩
  rw [List.getElem?_enum, List.getElem?_eq_getElem h]
  rfl

/-- If the index-rebuilding fold of `cleanup_old_tasks` produces no index,
no pair of the list carried the active id. -/
theorem cleanup_foldl_none (aid : Option Nat) (l : List (Nat × Task))
    (acc : List Task × Option Nat) :
    (List.foldl
      (fun a p => (a.1 ++ [p.2], if aid = some p.1 then some a.1.length else a.2))
      acc l).2 = none →
    acc.2 = none ∧ ∀ p ∈ l, aid ≠ some p.1 := by
  induction l generalizing acc with
  | nil =>
    intro h
    exact ⟨h, by intro p hp; cases hp⟩
  | cons p rest ih =>
    intro h
    rw [List.foldl_cons] at h
    obtain ⟨h2, hall⟩ := ih _ h
    by_cases hp : aid = some p.1
    · rw [if_pos hp] at h2
      cases h2
    · rw [if_neg hp] at h2
      refine ⟨h2, ?_⟩
      intro q hq
      rcases List.mem_cons.mp hq with rfl | hq2
      · exact hp
      · exact hall q hq2

/-- C4 (amended): when more than `MAX_TASKS` (10) tasks are stored, cleanup
keeps all non-completed tasks first (in their original order) and appends the
most-recently-created completed tasks, dropping completed tasks oldest-first
by `created_at`; the total is at most 10 whenever the non-completed tasks
alone do not already exceed 10 (with more than 10 non-completed tasks nothing
is dropped and the cap is exceeded: see the counterexample), and the active
index is recomputed to the active task's new position. -/
theorem C4_cleanup (m : TaskManager) (h : m.inv)
    (hlen : m.tasks.length > MAX_TASKS) :
    ∃ kept : List Task,
      (m.cleanup_old_tasks).tasks
        = m.tasks.filter (fun t => !t.is_completed) ++ kept ∧
      kept.length = min (m.tasks.filter (fun t => t.is_completed)).length
        (MAX_TASKS - (m.tasks.filter (fun t => !t.is_completed)).length) ∧
      (∀ t ∈ kept, t.is_completed = true) ∧
      kept.Pairwise (fun a b => a.created_at ≤ b.created_at) ∧
      (∀ u ∈ m.tasks, u.is_completed = true → u ∉ kept →
        ∀ t ∈ kept, u.created_at ≤ t.created_at) ∧
      ((m.tasks.filter (fun t => !t.is_completed)).length ≤ MAX_TASKS →
        (m.cleanup_old_tasks).tasks.length ≤ MAX_TASKS) ∧
      (∀ i, m.active_task_index = some i →
        ∃ j, (m.cleanup_old_tasks).active_task_index = some j ∧
          j < (m.cleanup_old_tasks).tasks.length ∧
          (m.cleanup_old_tasks).tasks.getD j default = m.tasks.getD i default) ∧
      (m.active_task_index = none →
        (m.cleanup_old_tasks).active_task_index = none) := by
  have hlen' : ¬ m.tasks.length ≤ MAX_TASKS := by omega
  have hpred : ∀ p ∈ m.tasks.enum,
      (m.active_task_index == some p.1 || !p.2.is_completed)
        = !p.2.is_completed := by
    intro p hp
    cases hc : p.2.is_completed
    · simp [hc]
    · cases hbeq : m.active_task_index == some p.1
      · simp [hc, hbeq]
      · exfalso
        have heq : m.active_task_index = some p.1 := eq_of_beq hbeq
        obtain ⟨hax, has⟩ := h p.1 heq
        have hidx := mem_enum_getElem? hp
        rw [List.getD_eq_getElem?_getD, hidx, Option.getD_some] at has
        have hnc := Task.not_completed_of_active_status _ has
        rw [hc] at hnc
        cases hnc
  have hsp : m.tasks.enum.partition
      (fun p => m.active_task_index == some p.1 || !p.2.is_completed)
      = (m.tasks.enum.filter (fun p => !p.2.is_completed),
         m.tasks.enum.filter (fun p => p.2.is_completed)) := by
    rw [List.partition_eq_filter_filter]
    refine Prod.ext (List.filter_congr hpred) (List.filter_congr ?_)
    intro p hp
    show (!(m.active_task_index == some p.1 || !p.2.is_completed))
      = p.2.is_completed
    rw [hpred p hp, Bool.not_not]
  have hfold1 : (List.foldl
      (fun a p => (a.1 ++ [p.2],
        if m.active_task_index = some p.1 then some a.1.length else a.2))
      (([] : List Task), (none : Option Nat))
      (m.tasks.enum.filter (fun p => !p.2.is_completed))).1
      = m.tasks.filter (fun t => !t.is_completed) := by
    rw [cleanup_foldl_fst,
      show m.tasks.enum = List.enumFrom 0 m.tasks from rfl,
      enumFrom_filter_map_snd (fun t => !t.is_completed) m.tasks 0]
    rfl
  have hCmap : (m.tasks.enum.filter (fun p => p.2.is_completed)).map Prod.snd
      = m.tasks.filter (fun t => t.is_completed) := by
    rw [show m.tasks.enum = List.enumFrom 0 m.tasks from rfl,
      enumFrom_filter_map_snd (fun t => t.is_completed) m.tasks 0]
  have hClen : (m.tasks.enum.filter (fun p => p.2.is_completed)).length
      = (m.tasks.filter (fun t => t.is_completed)).length := by
    rw [← hCmap, List.length_map]
  have hSlen : ((m.tasks.enum.filter (fun p => p.2.is_completed)).mergeSort
      (fun a b => a.2.created_at ≤ b.2.created_at)).length
      = (m.tasks.filter (fun t => t.is_completed)).length := by
    rw [(List.mergeSort_perm _ _).length_eq, hClen]
  have hclean : m.cleanup_old_tasks =
      { tasks := m.tasks.filter (fun t => !t.is_completed) ++
          (((m.tasks.enum.filter (fun p => p.2.is_completed)).mergeSort
              (fun a b => a.2.created_at ≤ b.2.created_at)).drop
            ((m.tasks.filter (fun t => t.is_completed)).length -
              (MAX_TASKS - (m.tasks.filter (fun t => !t.is_completed)).length))).map
            Prod.snd
        active_task_index := (List.foldl
          (fun a p => (a.1 ++ [p.2],
            if m.active_task_index = some p.1 then some a.1.length else a.2))
          (([] : List Task), (none : Option Nat))
          (m.tasks.enum.filter (fun p => !p.2.is_completed))).2 } := by
    simp only [TaskManager.cleanup_old_tasks, hlen', if_false, hsp]
    rw [hfold1, hSlen]
  have hsorted : List.Pairwise
      (fun a b : Nat × Task => (decide (a.2.created_at ≤ b.2.created_at)) = true)
      ((m.tasks.enum.filter (fun p => p.2.is_completed)).mergeSort
        (fun a b => a.2.created_at ≤ b.2.created_at)) := by
    exact List.sorted_mergeSort
      (by intro a b c hab hbc; simp only [decide_eq_true_eq] at *; omega)
      (by intro a b; simp only [Bool.or_eq_true, decide_eq_true_eq]; omega) _
  refine ⟨(((m.tasks.enum.filter (fun p => p.2.is_completed)).mergeSort
      (fun a b => a.2.created_at ≤ b.2.created_at)).drop
      ((m.tasks.filter (fun t => t.is_completed)).length -
        (MAX_TASKS - (m.tasks.filter (fun t => !t.is_completed)).length))).map
      Prod.snd, ?_, ?_, ?_, ?_, ?_, ?_, ?_, ?_⟩
  · rw [hclean]
  · rw [List.length_map, List.length_drop, hSlen]
    omega
  · intro t ht
    rcases List.mem_map.mp ht with ⟨p, hpdrop, hpt⟩
    have hpS := List.mem_of_mem_drop hpdrop
    have hpC := ((List.mergeSort_perm _ _).mem_iff).mp hpS
    have := (List.mem_filter.mp hpC).2
    rw [← hpt]
    exact this
  · refine List.Pairwise.map Prod.snd (fun a b hab => ?_)
      (List.Pairwise.sublist (List.drop_sublist _ _) hsorted)
    simpa using hab
  · intro u hu huc hunot t ht
    have humem : u ∈ (m.tasks.enum.filter (fun p => p.2.is_completed)).map
        Prod.snd := by
      rw [hCmap]
      exact List.mem_filter.mpr ⟨hu, huc⟩
    rcases List.mem_map.mp humem with ⟨p, hpC, hpu⟩
    have hpS : p ∈ (m.tasks.enum.filter (fun p => p.2.is_completed)).mergeSort
        (fun a b => a.2.created_at ≤ b.2.created_at) :=
      ((List.mergeSort_perm _ _).mem_iff).mpr hpC
    have hpS2 : p ∈
        (((m.tasks.enum.filter (fun p => p.2.is_completed)).mergeSort
          (fun a b => a.2.created_at ≤ b.2.created_at)).take
            ((m.tasks.filter (fun t => t.is_completed)).length -
              (MAX_TASKS - (m.tasks.filter (fun t => !t.is_completed)).length))) ++
        (((m.tasks.enum.filter (fun p => p.2.is_completed)).mergeSort
          (fun a b => a.2.created_at ≤ b.2.created_at)).drop
            ((m.tasks.filter (fun t => t.is_completed)).length -
              (MAX_TASKS - (m.tasks.filter (fun t => !t.is_completed)).length))) := by
      rw [List.take_append_drop]
      exact hpS
    rcases List.mem_append.mp hpS2 with hptake | hpdrop
    · rcases List.mem_map.mp ht with ⟨q, hqdrop, hqt⟩
      have hpw : List.Pairwise
          (fun a b : Nat × Task =>
            (decide (a.2.created_at ≤ b.2.created_at)) = true)
          ((((m.tasks.enum.filter (fun p => p.2.is_completed)).mergeSort
            (fun a b => a.2.created_at ≤ b.2.created_at)).take
              ((m.tasks.filter (fun t => t.is_completed)).length -
                (MAX_TASKS - (m.tasks.filter (fun t => !t.is_completed)).length))) ++
          (((m.tasks.enum.filter (fun p => p.2.is_completed)).mergeSort
            (fun a b => a.2.created_at ≤ b.2.created_at)).drop
              ((m.tasks.filter (fun t => t.is_completed)).length -
                (MAX_TASKS - (m.tasks.filter (fun t => !t.is_completed)).length)))) := by
        rw [List.take_append_drop]
        exact hsorted
      have hle := (List.pairwise_append.mp hpw).2.2 p hptake q hqdrop
      simp only [decide_eq_true_eq] at hle
      rw [← hpu, ← hqt]
      exact hle
    · exact absurd (List.mem_map.mpr ⟨p, hpdrop, hpu⟩) hunot
  · intro hnc
    rw [hclean]
    simp only [List.length_append, List.length_map, List.length_drop, hSlen]
    omega
  · intro i hi
    obtain ⟨hax, has⟩ := h i hi
    have hmemA : (i, m.tasks.getD i default) ∈
        m.tasks.enum.filter (fun p => !p.2.is_completed) := by
      refine List.mem_filter.mpr ⟨enum_mem_of_lt hax, ?_⟩
      show (!(m.tasks.getD i default).is_completed) = true
      rw [Task.not_completed_of_active_status _ has]
      rfl
    cases hf2 : (List.foldl
        (fun a p => (a.1 ++ [p.2],
          if m.active_task_index = some p.1 then some a.1.length else a.2))
        (([] : List Task), (none : Option Nat))
        (m.tasks.enum.filter (fun p => !p.2.is_completed))).2 with
    | none =>
      obtain ⟨-, hall⟩ := cleanup_foldl_none _ _ _ hf2
      exact absurd hi (hall _ hmemA)
    | some j =>
      rcases cleanup_foldl_snd _ _ _ j hf2 with hacc | ⟨p, hpA, haid, hget, hlt⟩
      · cases hacc
      · have hp1 : p.1 = i := by
          rw [hi] at haid
          injection haid with haid
          exact haid.symm
        have hpe : p ∈ m.tasks.enum := List.mem_of_mem_filter hpA
        have hidx := mem_enum_getElem? hpe
        have hp2 : p.2 = m.tasks.getD i default := by
          rw [List.getD_eq_getElem?_getD, ← hp1, hidx, Option.getD_some]
        rw [hfold1] at hget hlt
        refine ⟨j, ?_, ?_, ?_⟩
        · rw [hclean]
          exact hf2
        · rw [hclean]
          simp only [List.length_append]
          omega
        · rw [hclean]
          show ((m.tasks.filter (fun t => !t.is_completed) ++ _).getD j default)
            = m.tasks.getD i default
          rw [List.getD_eq_getElem?_getD, List.getElem?_append, if_pos hlt,
            ← List.getD_eq_getElem?_getD, hget, hp2]
  · intro hnone
    rw [hclean]
    show (List.foldl
        (fun a p => (a.1 ++ [p.2],
          if m.active_task_index = some p.1 then some a.1.length else a.2))
        (([] : List Task), (none : Option Nat))
        (m.tasks.enum.filter (fun p => !p.2.is_completed))).2 = none
    cases hf2 : (List.foldl
        (fun a p => (a.1 ++ [p.2],
          if m.active_task_index = some p.1 then some a.1.length else a.2))
        (([] : List Task), (none : Option Nat))
        (m.tasks.enum.filter (fun p => !p.2.is_completed))).2 with
    | none => rfl
    | some j =>
      rcases cleanup_foldl_snd _ _ _ j hf2 with hacc | ⟨p, -, haid, -, -⟩
      · cases hacc
      · rw [hnone] at haid
        cases haid

/-- C4 counterexample: `sample_eleven` stores eleven tasks, none completed
(ten paused plus the running active one) - a state the CLI reaches by
starting eleven tasks in a row.  Retention cleanup discards only completed
tasks, so it keeps all eleven and the claimed bound "the total is at most 10"
fails. -/
theorem C4_bound_counterexample :
    sample_eleven.inv ∧
    sample_eleven.tasks.length = 11 ∧
    MAX_TASKS < 11 ∧
    (sample_eleven.cleanup_old_tasks).tasks.length = 11 := by
  have hpart : sample_eleven.tasks.enum.partition
      (fun p => sample_eleven.active_task_index == some p.1 || !p.2.is_completed)
      = (sample_eleven.tasks.enum, []) := by decide
  refine ⟨?_, by decide, by decide, ?_⟩
  · intro i hi
    injection hi with hi
    subst hi
    exact ⟨by decide, by decide⟩
  · simp only [TaskManager.cleanup_old_tasks,
      show ¬ sample_eleven.tasks.length ≤ MAX_TASKS by decide, if_false,
      hpart, List.mergeSort_nil, List.drop_nil, List.map_nil, List.append_nil]
    decide

/-- C4 witness: on `sample_twelve` (eleven completed tasks and a running
active one), cleanup leaves at most ten tasks, as the amended claim states
for managers whose non-completed tasks fit the cap. -/
theorem C4_cleanup_witness :
    (sample_twelve.cleanup_old_tasks).tasks.length ≤ MAX_TASKS := by
  have hinv : sample_twelve.inv := by
    intro i hi
    injection hi with hi
    subst hi
    exact ⟨by decide, by decide⟩
  obtain ⟨kept, -, -, -, -, -, hbound, -, -⟩ :=
    C4_cleanup sample_twelve hinv (by decide)
  exact hbound (by decide)

end TT
